import Mathlib

/-
Verification of the route-matching library (main.go).

The library keeps three global tables:
  - prefixRoutesTable : a slice of route records, sorted by decreasing path
    length, holding the registered longest-match routes (the Go init
    function creates it as make([]route, 10), i.e. with ten zero-value
    records whose path is "");
  - exactMatchTable : a map from path to route record, holding both
    caller-registered exact routes and dynamically generated cache entries;
  - dynamicEntries : a slice of the paths for which a dynamically generated
    entry was created (also created by init as make([]string, 10), i.e.
    with ten empty strings).

We embed the state as a structure, the Go map as an association list with
insert-overwrite / first-match-get / delete, and the two exported
operations AddRoute and RouteLookup as state-passing functions returning
the Go error as an Option String (none = nil).
-/

namespace RouteMatching

/-- Route record, mirroring Go `type route struct`. -/
structure route where
  path : String
  matchType : String
  destination : String
  dynamicEntry : Bool
deriving Repr, DecidableEq

/-- Global state: the three tables of the Go package. -/
structure St where
  prefixRoutesTable : List route
  exactMatchTable : List (String × route)
  dynamicEntries : List String
deriving Repr, DecidableEq

/-- Go map read `m[k]`: first entry with the key, if any. -/
def mapGet (m : List (String × route)) (k : String) : Option route :=
  (m.find? (fun kv => kv.1 == k)).map (fun kv => kv.2)

/-- Go map write `m[k] = v`: overwrite the entry at the key or append one. -/
def mapInsert (m : List (String × route)) (k : String) (v : route) :
    List (String × route) :=
  match m with
  | [] => [(k, v)]
  | kv :: rest =>
    if kv.1 = k then (k, v) :: rest else kv :: mapInsert rest k v

/-- Go `delete(m, k)`: drop the entry at the key. -/
def mapDelete (m : List (String × route)) (k : String) :
    List (String × route) :=
  m.filter (fun kv => !(kv.1 == k))

/-- The match test of RouteLookup's scan, translated from
`(len(path) >= len(r.path)) && len(r.path) != 0 && (r.path == path[0:len(r.path)])`. -/
def routeMatches (r : route) (path : String) : Bool :=
  decide (r.path.length ≤ path.length) && !(r.path.length == 0)
    && (r.path == path.take r.path.length)

/-- The scan of AddRoute's update branch: find the first record whose path
equals the argument and set its destination in place; `none` when no
record has that path (translated from the `for i, r := range` loop). -/
def upsertScan (tbl : List route) (path destination : String) :
    Option (List route) :=
  match tbl with
  | [] => none
  | r :: rs =>
    if r.path = path then some ({ r with destination := destination } :: rs)
    else (upsertScan rs path destination).map (fun rs2 => r :: rs2)

/-- Insert a record into a length-descending list, keeping records with
path at least as long in front. -/
def insertLenDesc (r : route) : List route → List route
  | [] => [r]
  | x :: xs =>
    if r.path.length ≤ x.path.length then x :: insertLenDesc r xs
    else r :: x :: xs

/-- The re-sort of AddRoute's insert branch: sort by decreasing path
length (Go `sort.Slice` with `len(path i) > len(path j)`; ties among equal
lengths carry no observable behavior, every lookup outcome depends only on
the length-descending order). -/
def sortLenDesc : List route → List route
  | [] => []
  | x :: xs => insertLenDesc x (sortLenDesc xs)

/-- One iteration of the flush loop: delete the exact entry at a recorded
path when the path is nonempty and the entry is still dynamically
generated. -/
def flushStep (m : List (String × route)) (p : String) :
    List (String × route) :=
  if p = "" then m
  else
    match mapGet m p with
    | some dR => if dR.dynamicEntry then mapDelete m p else m
    | none => m

/-- Go `flushDynamicRoutes`: walk the recorded paths, delete the exact
entry at each nonempty one that is still dynamically generated, then clear
the record slice. -/
def flushDynamicRoutes (s : St) : St :=
  { s with
    exactMatchTable := s.dynamicEntries.foldl flushStep s.exactMatchTable
    dynamicEntries := [] }

/-- Go `AddRoute`: returns the Go error (always nil in the source) and the
new state. -/
def addRoute (s : St) (path matchType destination : String) :
    Option String × St :=
  let rte : route :=
    { path := path, matchType := matchType, destination := destination,
      dynamicEntry := false }
  if matchType = "exact" then
    (none, { s with exactMatchTable := mapInsert s.exactMatchTable path rte })
  else
    match upsertScan s.prefixRoutesTable path destination with
    | some tbl =>
      (none, flushDynamicRoutes { s with prefixRoutesTable := tbl })
    | none =>
      (none,
        { s with
          prefixRoutesTable := sortLenDesc (s.prefixRoutesTable ++ [rte]) })

/-- Go `createDynamicRoute`: record the path, then cache a generated exact
entry for it. -/
def createDynamicRoute (s : St) (path destination : String) : St :=
  { s with
    dynamicEntries := s.dynamicEntries ++ [path]
    exactMatchTable :=
      mapInsert s.exactMatchTable path
        { path := path, matchType := "exact", destination := destination,
          dynamicEntry := true } }

/-- Go `RouteLookup`: destination, Go error (always nil in the source) and
the new state. -/
def routeLookup (s : St) (path : String) : String × Option String × St :=
  match mapGet s.exactMatchTable path with
  | some rte => (rte.destination, none, s)
  | none =>
    match s.prefixRoutesTable.find? (fun r => routeMatches r path) with
    | some r => (r.destination, none, createDynamicRoute s path r.destination)
    | none =>
      ("default-service", none, createDynamicRoute s path "default-service")

/-- The zero value of the route struct. -/
def zeroRoute : route :=
  { path := "", matchType := "", destination := "", dynamicEntry := false }

/-- Convenience constructor for route records. -/
def mkRoute (p m d : String) (dyn : Bool) : route :=
  { path := p, matchType := m, destination := d, dynamicEntry := dyn }

/-- Go `init`: `make([]route, 10)`, `make(map[string]route, 10)`,
`make([]string, 10)` — the two slices start with ten zero values. -/
def initState : St :=
  { prefixRoutesTable := List.replicate 10 zeroRoute
    exactMatchTable := []
    dynamicEntries := List.replicate 10 "" }

/-- One external operation of the library. -/
inductive Op where
  | add (path matchType destination : String)
  | lookup (path : String)
deriving Repr, DecidableEq

/-- State transition of one operation. -/
def step (s : St) : Op → St
  | .add p m d => (addRoute s p m d).2
  | .lookup p => (routeLookup s p).2.2

/-- State after running a sequence of operations from the initial state. -/
def run (ops : List Op) : St :=
  ops.foldl step initState

/-- Ordering relation of the table: the later record's path is no longer
than the earlier one's. -/
def lenDescRel (a b : route) : Prop :=
  b.path.length ≤ a.path.length

instance : DecidableRel lenDescRel := fun _ _ => Nat.decLe _ _

/-- The registered-path tables never hold two records with the same
nonempty path. -/
def pathDistinctRel (a b : route) : Prop :=
  a.path ≠ "" → a.path ≠ b.path

instance : DecidableRel pathDistinctRel := fun a b => by
  unfold pathDistinctRel; infer_instance

/-- The table is sorted by non-increasing path length. -/
def sortedLenDesc (l : List route) : Prop :=
  l.Pairwise lenDescRel

instance (l : List route) : Decidable (sortedLenDesc l) :=
  List.instDecidablePairwise l

/-- No nonempty path appears on two records of the table. -/
def distinctNonempty (l : List route) : Prop :=
  l.Pairwise pathDistinctRel

instance (l : List route) : Decidable (distinctNonempty l) :=
  List.instDecidablePairwise l

/-- Relation between records equal except possibly in `matchType` (a field
no lookup or flush ever reads). -/
def kindErased (a b : route) : Prop :=
  a.path = b.path ∧ a.destination = b.destination ∧
    a.dynamicEntry = b.dynamicEntry

/-- Record list with the `matchType` field dropped. -/
def eraseKind (l : List route) : List (String × String × Bool) :=
  l.map (fun r => (r.path, r.destination, r.dynamicEntry))

/-- Operations allowed between two lookups of `p` without affecting the
second one: lookups of any path, and exact registrations at other paths. -/
def allowedBetween (p : String) : Op → Bool
  | .add q m _ => m == "exact" && !(q == p)
  | .lookup _ => true

/-- The registrations of the worked example in the package comment. -/
def demoAdds : List Op :=
  [ .add "/api/1" "exact" "service-1"
  , .add "/api/1/1" "exact" "service-2"
  , .add "/api/2/1" "prefix" "service-3"
  , .add "/api/2/" "prefix" "service-4"
  , .add "/api/1" "prefix" "service-5"
  , .add "/api/2/1/1" "prefix" "service-6" ]

/-- A concrete state used to instantiate the flush contract: one generated
entry, one caller-registered entry, both recorded in the ledger. -/
def flushDemoState : St :=
  { prefixRoutesTable := []
    exactMatchTable :=
      [ ("a", { path := "a", matchType := "exact", destination := "d1",
                dynamicEntry := true })
      , ("b", { path := "b", matchType := "exact", destination := "d2",
                dynamicEntry := false }) ]
    dynamicEntries := ["a", "b"] }

/-- A concrete two-record table used to instantiate the longest-match
theorem. -/
def lpmDemoState : St :=
  { prefixRoutesTable :=
      [ { path := "/a/b", matchType := "prefix", destination := "s2",
          dynamicEntry := false }
      , { path := "/a", matchType := "prefix", destination := "s1",
          dynamicEntry := false } ]
    exactMatchTable := []
    dynamicEntries := [] }

theorem mapGet_mapInsert_self (m : List (String × route)) (k : String)
    (v : route) : mapGet (mapInsert m k v) k = some v := by
  induction m with
  | nil => simp [mapGet, mapInsert]
  | cons kv rest ih =>
    by_cases h : kv.1 = k
    · simp [mapInsert, h, mapGet]
    · simpa [mapInsert, h, mapGet] using ih

theorem mapGet_mapInsert_ne (m : List (String × route)) (k k' : String)
    (v : route) (h : k' ≠ k) :
    mapGet (mapInsert m k v) k' = mapGet m k' := by
  induction m with
  | nil => simp [mapGet, mapInsert, Ne.symm h]
  | cons kv rest ih =>
    by_cases hk : kv.1 = k
    · subst hk
      simp [mapInsert, mapGet, Ne.symm h, h]
    · by_cases hk' : kv.1 = k'
      · simp [mapInsert, hk, mapGet, hk', h]
      · simpa [mapInsert, hk, mapGet, hk'] using ih

theorem mapGet_mapDelete_self (m : List (String × route)) (k : String) :
    mapGet (mapDelete m k) k = none := by
  induction m with
  | nil => simp [mapGet, mapDelete]
  | cons kv rest ih =>
    by_cases h : kv.1 = k
    · simpa [mapDelete, h, mapGet] using ih
    · simpa [mapDelete, h, mapGet] using ih

theorem mapGet_mapDelete_ne (m : List (String × route)) (k k' : String)
    (h : k' ≠ k) : mapGet (mapDelete m k) k' = mapGet m k' := by
  induction m with
  | nil => simp [mapGet, mapDelete]
  | cons kv rest ih =>
    by_cases hk : kv.1 = k
    · subst hk
      simpa [mapDelete, mapGet, Ne.symm h] using ih
    · by_cases hk' : kv.1 = k'
      · simp [mapDelete, hk, mapGet, hk', h]
      · simpa [mapDelete, hk, mapGet, hk'] using ih

theorem flushStep_get_of_not_dyn (m : List (String × route)) (p q : String)
    (v : route) (hv : mapGet m q = some v) (hd : v.dynamicEntry = false) :
    mapGet (flushStep m p) q = some v := by
  unfold flushStep
  by_cases hp : p = ""
  · simp [hp, hv]
  · rw [if_neg hp]
    cases hmp : mapGet m p with
    | none => exact hv
    | some dR =>
      cases hdyn : dR.dynamicEntry with
      | false => simpa [hdyn] using hv
      | true =>
        have hqp : q ≠ p := by
          intro hqp
          rw [hqp, hmp] at hv
          cases hv
          rw [hd] at hdyn
          exact Bool.false_ne_true hdyn
        simp only [hdyn, if_true]
        rw [mapGet_mapDelete_ne m p q hqp]
        exact hv

theorem flushStep_get_some (m : List (String × route)) (p q : String)
    (v : route) (hv : mapGet (flushStep m p) q = some v) :
    mapGet m q = some v := by
  unfold flushStep at hv
  by_cases hp : p = ""
  · simpa [hp] using hv
  · rw [if_neg hp] at hv
    cases hmp : mapGet m p with
    | none => rw [hmp] at hv; exact hv
    | some dR =>
      rw [hmp] at hv
      cases hdyn : dR.dynamicEntry with
      | false => simpa [hdyn] using hv
      | true =>
        simp only [hdyn, if_true] at hv
        by_cases hqp : q = p
        · rw [hqp, mapGet_mapDelete_self] at hv
          cases hv
        · rwa [mapGet_mapDelete_ne m p q hqp] at hv

theorem flushStep_get_none (m : List (String × route)) (p q : String)
    (hv : mapGet (flushStep m p) q = none) :
    mapGet m q = none ∨
      (q = p ∧ ∃ v, mapGet m q = some v ∧ v.dynamicEntry = true) := by
  unfold flushStep at hv
  by_cases hp : p = ""
  · left; simpa [hp] using hv
  · rw [if_neg hp] at hv
    cases hmp : mapGet m p with
    | none => left; rw [hmp] at hv; exact hv
    | some dR =>
      rw [hmp] at hv
      cases hdyn : dR.dynamicEntry with
      | false => left; simpa [hdyn] using hv
      | true =>
        simp only [hdyn, if_true] at hv
        by_cases hqp : q = p
        · right
          refine ⟨hqp, dR, ?_, hdyn⟩
          rw [hqp, hmp]
        · left; rwa [mapGet_mapDelete_ne m p q hqp] at hv

theorem flushFold_get_of_not_dyn (ps : List String)
    (m : List (String × route)) (q : String) (v : route)
    (hv : mapGet m q = some v) (hd : v.dynamicEntry = false) :
    mapGet (ps.foldl flushStep m) q = some v := by
  induction ps generalizing m with
  | nil => exact hv
  | cons p ps ih =>
    exact ih (flushStep m p) (flushStep_get_of_not_dyn m p q v hv hd)

theorem flushFold_get_some (ps : List String) (m : List (String × route))
    (q : String) (v : route) (hv : mapGet (ps.foldl flushStep m) q = some v) :
    mapGet m q = some v := by
  induction ps generalizing m with
  | nil => exact hv
  | cons p ps ih => exact flushStep_get_some m p q v (ih (flushStep m p) hv)

theorem flushFold_get_none (ps : List String) (m : List (String × route))
    (q : String) (hv : mapGet (ps.foldl flushStep m) q = none) :
    mapGet m q = none ∨
      (q ∈ ps ∧ ∃ v, mapGet m q = some v ∧ v.dynamicEntry = true) := by
  induction ps generalizing m with
  | nil => exact Or.inl hv
  | cons p ps ih =>
    rcases ih (flushStep m p) hv with h1 | ⟨hmem, v', hv', hdyn⟩
    · rcases flushStep_get_none m p q h1 with h2 | ⟨hqp, v, hv2, hd2⟩
      · exact Or.inl h2
      · exact Or.inr ⟨by simp [hqp], v, hv2, hd2⟩
    · exact Or.inr ⟨List.mem_cons_of_mem p hmem,
        v', flushStep_get_some m p q v' hv', hdyn⟩

theorem flush_dynamicEntries (s : St) :
    (flushDynamicRoutes s).dynamicEntries = [] := rfl

theorem flush_prefixTable (s : St) :
    (flushDynamicRoutes s).prefixRoutesTable = s.prefixRoutesTable := rfl

theorem flush_get_of_not_dyn (s : St) (q : String) (v : route)
    (hv : mapGet s.exactMatchTable q = some v)
    (hd : v.dynamicEntry = false) :
    mapGet (flushDynamicRoutes s).exactMatchTable q = some v :=
  flushFold_get_of_not_dyn s.dynamicEntries s.exactMatchTable q v hv hd

theorem upsertScan_none_iff (tbl : List route) (p d : String) :
    upsertScan tbl p d = none ↔ ∀ r ∈ tbl, r.path ≠ p := by
  induction tbl with
  | nil => simp [upsertScan]
  | cons r rs ih =>
    by_cases h : r.path = p
    · simp [upsertScan, h]
    · simp [upsertScan, h, Option.map_eq_none, ih]

theorem upsertScan_some_mem (tbl : List route) (p d : String)
    (tbl' : List route) (h : upsertScan tbl p d = some tbl') :
    ∃ r ∈ tbl', r.path = p ∧ r.destination = d := by
  induction tbl generalizing tbl' with
  | nil => cases h
  | cons r rs ih =>
    by_cases hr : r.path = p
    · rw [upsertScan, if_pos hr] at h
      cases h
      exact ⟨{ r with destination := d }, List.mem_cons_self _ _, hr, rfl⟩
    · rw [upsertScan, if_neg hr] at h
      cases hs : upsertScan rs p d with
      | none => rw [hs] at h; cases h
      | some rs2 =>
        rw [hs] at h
        cases h
        obtain ⟨r2, hmem, hpath, hdest⟩ := ih rs2 hs
        exact ⟨r2, List.mem_cons_of_mem r hmem, hpath, hdest⟩

theorem upsertScan_map_path (tbl : List route) (p d : String)
    (tbl' : List route) (h : upsertScan tbl p d = some tbl') :
    tbl'.map route.path = tbl.map route.path := by
  induction tbl generalizing tbl' with
  | nil => cases h
  | cons r rs ih =>
    by_cases hr : r.path = p
    · rw [upsertScan, if_pos hr] at h
      cases h
      simp
    · rw [upsertScan, if_neg hr] at h
      cases hs : upsertScan rs p d with
      | none => rw [hs] at h; cases h
      | some rs2 =>
        rw [hs] at h
        cases h
        simp [ih rs2 hs]

theorem insertLenDesc_perm (r : route) (l : List route) :
    List.Perm (insertLenDesc r l) (r :: l) := by
  induction l with
  | nil => exact List.Perm.refl _
  | cons x xs ih =>
    by_cases h : r.path.length ≤ x.path.length
    · rw [insertLenDesc, if_pos h]
      exact (ih.cons x).trans (List.Perm.swap r x xs)
    · rw [insertLenDesc, if_neg h]

theorem sortLenDesc_perm (l : List route) : List.Perm (sortLenDesc l) l := by
  induction l with
  | nil => exact List.Perm.refl _
  | cons x xs ih =>
    exact (insertLenDesc_perm x (sortLenDesc xs)).trans (ih.cons x)

theorem insertLenDesc_sorted (r : route) (l : List route)
    (h : sortedLenDesc l) : sortedLenDesc (insertLenDesc r l) := by
  induction l with
  | nil =>
    show List.Pairwise lenDescRel [r]
    simp
  | cons x xs ih =>
    have h' : List.Pairwise lenDescRel (x :: xs) := h
    rw [List.pairwise_cons] at h'
    obtain ⟨hx, hxs⟩ := h'
    by_cases hle : r.path.length ≤ x.path.length
    · rw [insertLenDesc, if_pos hle]
      show List.Pairwise lenDescRel (x :: insertLenDesc r xs)
      rw [List.pairwise_cons]
      constructor
      · intro y hy
        have hy2 : y ∈ r :: xs := (insertLenDesc_perm r xs).mem_iff.mp hy
        rcases List.mem_cons.mp hy2 with hy3 | hy3
        · rw [hy3]; exact hle
        · exact hx y hy3
      · exact ih hxs
    · rw [insertLenDesc, if_neg hle]
      show List.Pairwise lenDescRel (r :: x :: xs)
      rw [List.pairwise_cons]
      constructor
      · intro y hy
        rcases List.mem_cons.mp hy with hy3 | hy3
        · rw [hy3]; exact Nat.le_of_not_le hle
        · exact Nat.le_trans (hx y hy3) (Nat.le_of_not_le hle)
      · exact h

theorem sortLenDesc_sorted (l : List route) :
    sortedLenDesc (sortLenDesc l) := by
  induction l with
  | nil => exact List.Pairwise.nil
  | cons x xs ih => exact insertLenDesc_sorted x (sortLenDesc xs) ih

theorem routeMatches_iff (r : route) (p : String) :
    routeMatches r p = true ↔
      r.path.length ≤ p.length ∧ r.path.length ≠ 0 ∧
        r.path = p.take r.path.length := by
  simp [routeMatches, Bool.and_eq_true, decide_eq_true_iff, and_assoc]

theorem routeMatches_path_ne_empty (r : route) (p : String)
    (h : routeMatches r p = true) : r.path ≠ "" := by
  intro he
  have h2 := (routeMatches_iff r p).mp h
  rw [he] at h2
  exact h2.2.1 rfl

theorem routeMatches_eq_path_of_len_eq (a b : route) (p : String)
    (ha : routeMatches a p = true) (hb : routeMatches b p = true)
    (hlen : a.path.length = b.path.length) : a.path = b.path := by
  have ha2 := (routeMatches_iff a p).mp ha
  have hb2 := (routeMatches_iff b p).mp hb
  rw [ha2.2.2, hb2.2.2, hlen]

theorem mem_eq_of_distinct (l : List route) (a b : route)
    (hd : distinctNonempty l) (ha : a ∈ l) (hb : b ∈ l)
    (hp : a.path = b.path) (hne : a.path ≠ "") : a = b := by
  induction l with
  | nil => cases ha
  | cons x xs ih =>
    have hd' : List.Pairwise pathDistinctRel (x :: xs) := hd
    rw [List.pairwise_cons] at hd'
    obtain ⟨hx, hxs⟩ := hd'
    rcases List.mem_cons.mp ha with ha1 | ha1
    · rcases List.mem_cons.mp hb with hb1 | hb1
      · rw [ha1, hb1]
      · subst ha1
        exact absurd hp (hx b hb1 hne)
    · rcases List.mem_cons.mp hb with hb1 | hb1
      · subst hb1
        have hbne : b.path ≠ "" := by rw [← hp]; exact hne
        exact absurd hp.symm (hx a ha1 hbne)
      · exact ih hxs ha1 hb1

theorem pairwise_path_transfer (R : String → String → Prop)
    (l l' : List route) (h : l'.map route.path = l.map route.path)
    (hp : l.Pairwise (fun a b => R a.path b.path)) :
    l'.Pairwise (fun a b => R a.path b.path) := by
  have h1 : (l.map route.path).Pairwise R := List.pairwise_map.mpr hp
  rw [← h] at h1
  exact List.pairwise_map.mp h1

theorem sorted_of_map_path_eq (l l' : List route)
    (h : l'.map route.path = l.map route.path) (hs : sortedLenDesc l) :
    sortedLenDesc l' :=
  pairwise_path_transfer (fun x y => y.length ≤ x.length) l l' h hs

theorem distinct_of_map_path_eq (l l' : List route)
    (h : l'.map route.path = l.map route.path) (hs : distinctNonempty l) :
    distinctNonempty l' :=
  pairwise_path_transfer (fun x y => x ≠ "" → x ≠ y) l l' h hs

theorem pathDistinctRel_symm : Symmetric pathDistinctRel := by
  intro a b hab hbne hbeq
  have hane : a.path ≠ "" := by rw [hbeq] at hbne; exact hbne
  exact hab hane hbeq.symm

theorem distinct_of_perm (l l' : List route) (hp : List.Perm l l')
    (h : distinctNonempty l) : distinctNonempty l' :=
  (hp.pairwise_iff (fun h2 => pathDistinctRel_symm h2)).mp h

theorem routeLookup_exact_hit (s : St) (p : String) (v : route)
    (h : mapGet s.exactMatchTable p = some v) :
    routeLookup s p = (v.destination, none, s) := by
  unfold routeLookup
  rw [h]

theorem routeLookup_scan_hit (s : St) (p : String) (r : route)
    (h : mapGet s.exactMatchTable p = none)
    (hf : s.prefixRoutesTable.find? (fun x => routeMatches x p) = some r) :
    routeLookup s p = (r.destination, none,
      createDynamicRoute s p r.destination) := by
  unfold routeLookup
  simp only [h, hf]

theorem routeLookup_scan_default (s : St) (p : String)
    (h : mapGet s.exactMatchTable p = none)
    (hf : s.prefixRoutesTable.find? (fun x => routeMatches x p) = none) :
    routeLookup s p = ("default-service", none,
      createDynamicRoute s p "default-service") := by
  unfold routeLookup
  simp only [h, hf]

theorem routeLookup_cached (s : St) (p : String) :
    ∃ v, mapGet (routeLookup s p).2.2.exactMatchTable p = some v ∧
      v.destination = (routeLookup s p).1 := by
  cases h : mapGet s.exactMatchTable p with
  | some rte =>
    rw [routeLookup_exact_hit s p rte h]
    exact ⟨rte, h, rfl⟩
  | none =>
    cases hf : s.prefixRoutesTable.find? (fun x => routeMatches x p) with
    | some r =>
      rw [routeLookup_scan_hit s p r h hf]
      exact ⟨_, mapGet_mapInsert_self _ _ _, rfl⟩
    | none =>
      rw [routeLookup_scan_default s p h hf]
      exact ⟨_, mapGet_mapInsert_self _ _ _, rfl⟩

theorem addRoute_exact (s : St) (p d : String) :
    addRoute s p "exact" d =
      (none, { s with exactMatchTable := mapInsert s.exactMatchTable p (mkRoute p "exact" d false) }) := by
  unfold addRoute
  simp [mkRoute]

theorem addRoute_other_update (s : St) (p m d : String) (tbl : List route)
    (hm : m ≠ "exact")
    (h : upsertScan s.prefixRoutesTable p d = some tbl) :
    addRoute s p m d =
      (none, flushDynamicRoutes { s with prefixRoutesTable := tbl }) := by
  unfold addRoute
  rw [if_neg hm, h]

theorem addRoute_other_insert (s : St) (p m d : String)
    (hm : m ≠ "exact")
    (h : upsertScan s.prefixRoutesTable p d = none) :
    addRoute s p m d =
      (none, { s with prefixRoutesTable := sortLenDesc (s.prefixRoutesTable ++ [mkRoute p m d false]) }) := by
  unfold addRoute
  rw [if_neg hm, h]
  rfl

theorem routeLookup_prefixTable (s : St) (q : String) :
    (routeLookup s q).2.2.prefixRoutesTable = s.prefixRoutesTable := by
  cases h : mapGet s.exactMatchTable q with
  | some rte => rw [routeLookup_exact_hit s q rte h]
  | none =>
    cases hf : s.prefixRoutesTable.find? (fun x => routeMatches x q) with
    | some r => rw [routeLookup_scan_hit s q r h hf]; rfl
    | none => rw [routeLookup_scan_default s q h hf]; rfl

theorem find_first_len_max (l : List route) (p : String)
    (hs : sortedLenDesc l) (r : route)
    (hf : l.find? (fun x => routeMatches x p) = some r) :
    ∀ q ∈ l, routeMatches q p = true → q.path.length ≤ r.path.length := by
  induction l with
  | nil => cases hf
  | cons x xs ih =>
    have hs' : List.Pairwise lenDescRel (x :: xs) := hs
    rw [List.pairwise_cons] at hs'
    obtain ⟨hx, hxs⟩ := hs'
    cases hxm : routeMatches x p with
    | true =>
      simp only [List.find?_cons, hxm] at hf
      injection hf with hf2
      subst hf2
      intro q hq hqm
      rcases List.mem_cons.mp hq with hq1 | hq1
      · rw [hq1]
      · exact hx q hq1
    | false =>
      simp only [List.find?_cons, hxm] at hf
      intro q hq hqm
      rcases List.mem_cons.mp hq with hq1 | hq1
      · rw [hq1] at hqm
        rw [hqm] at hxm
        cases hxm
      · exact ih hxs hf q hq1 hqm

/-- C1: the claim says every mutating prefix AddRoute (fresh insert or
destination change) flushes the cached generated entries before returning.
The code only flushes on the in-place update branch: after RouteLookup "/a"
caches the default destination, a fresh prefix registration of "/a"
returns with the ledger intact and the next RouteLookup "/a" returns the
stale cached "default-service"; running the documented flush instead
yields "s1". -/
theorem C1_insert_skips_flush :
    (routeLookup (addRoute (routeLookup initState "/a").2.2
        "/a" "prefix" "s1").2 "/a").1 = "default-service" ∧
    (addRoute (routeLookup initState "/a").2.2
        "/a" "prefix" "s1").2.dynamicEntries ≠ [] ∧
    (routeLookup (flushDynamicRoutes (addRoute
        (routeLookup initState "/a").2.2 "/a" "prefix" "s1").2) "/a").1
      = "s1" := by
  decide

/-- C2 counterexample: the claim says the returned error is non-nil when
matchType is neither "exact" nor "prefix"; the code returns nil for the
unrecognized matchType "bogus". -/
theorem C2_counterexample :
    (addRoute initState "/x" "bogus" "d").1 = none := by
  decide

/-- C2 amended: AddRoute never returns an error — the result is nil for
every path, matchType and destination, recognized or not. -/
theorem C2_amended_always_nil (s : St) (p m d : String) :
    (addRoute s p m d).1 = none := by
  unfold addRoute
  by_cases hm : m = "exact"
  · simp [hm]
  · simp only [if_neg hm]
    cases h : upsertScan s.prefixRoutesTable p d <;> simp [h]

/-- C8 counterexample: the claim says the prefix table holds at most one
record per distinct registered prefix path; after registering the empty
path as a prefix route, the table holds ten records with that path (the
Go init fills the slice with ten zero-value records, and the registration
updates the first of them in place). -/
theorem C8_counterexample :
    (run [Op.add "" "prefix" "d1"]).prefixRoutesTable.countP
      (fun r => r.path == "") = 10 := by
  decide

/-- C9: starting from the empty initial state, the worked-example sequence
of six registrations followed by the six lookups (with the prefix
re-registration of "/api/2/" before the last one) yields exactly the
destinations of the package comment. -/
theorem C9_worked_example :
    (let s0 := run demoAdds
     let l1 := routeLookup s0 "/api/1"
     let l2 := routeLookup l1.2.2 "/api/1/2"
     let l3 := routeLookup l2.2.2 "/api/3"
     let l4 := routeLookup l3.2.2 "/api/2/1/2"
     let l5 := routeLookup l4.2.2 "/api/2/"
     let s6 := (addRoute l5.2.2 "/api/2/" "prefix" "service-7").2
     let l6 := routeLookup s6 "/api/2/"
     l1.1 = "service-1" ∧ l2.1 = "service-5" ∧ l3.1 = "default-service" ∧
       l4.1 = "service-3" ∧ l5.1 = "service-4" ∧ l6.1 = "service-7") := by
  decide

/-- C6: a path with no exact entry and no matching prefix record looks up
to "default-service" with a nil error, and the outcome is cached like a
prefix hit: a generated exact entry at the path and a ledger append of the
path. -/
theorem C6_default_fallback_cached (s : St) (p : String)
    (hex : mapGet s.exactMatchTable p = none)
    (hpre : ∀ r ∈ s.prefixRoutesTable, routeMatches r p = false) :
    (routeLookup s p).1 = "default-service" ∧
    (routeLookup s p).2.1 = none ∧
    mapGet (routeLookup s p).2.2.exactMatchTable p =
      some { path := p, matchType := "exact",
             destination := "default-service", dynamicEntry := true } ∧
    (routeLookup s p).2.2.dynamicEntries = s.dynamicEntries ++ [p] := by
  have hf : s.prefixRoutesTable.find? (fun x => routeMatches x p) = none := by
    rw [List.find?_eq_none]
    intro x hx
    simp [hpre x hx]
  rw [routeLookup_scan_default s p hex hf]
  exact ⟨rfl, rfl, mapGet_mapInsert_self _ _ _, rfl⟩

/-- C6 witness: the theorem instantiated at the initial state and the path
"/a", with both hypotheses evaluated. -/
theorem C6_default_fallback_cached_witness :
    mapGet initState.exactMatchTable "/a" = none ∧
    (∀ r ∈ initState.prefixRoutesTable, routeMatches r "/a" = false) ∧
    ((routeLookup initState "/a").1 = "default-service" ∧
     (routeLookup initState "/a").2.1 = none ∧
     mapGet (routeLookup initState "/a").2.2.exactMatchTable "/a" =
       some { path := "/a", matchType := "exact",
              destination := "default-service", dynamicEntry := true } ∧
     (routeLookup initState "/a").2.2.dynamicEntries =
       initState.dynamicEntries ++ ["/a"]) :=
  ⟨by decide, by decide,
    C6_default_fallback_cached initState "/a" (by decide) (by decide)⟩

/-- C7: the flush deletes an exact entry at a ledger path only while it is
still marked generated — a non-generated entry at any path survives the
flush unchanged, any entry deleted by the flush was recorded in the ledger
and still generated, and the ledger is empty after the flush. -/
theorem C7_flush_contract (s : St) (q : String) :
    (flushDynamicRoutes s).dynamicEntries = [] ∧
    (∀ v, mapGet s.exactMatchTable q = some v → v.dynamicEntry = false →
      mapGet (flushDynamicRoutes s).exactMatchTable q = some v) ∧
    (∀ v, mapGet s.exactMatchTable q = some v →
      mapGet (flushDynamicRoutes s).exactMatchTable q = none →
      q ∈ s.dynamicEntries ∧ v.dynamicEntry = true) := by
  refine ⟨rfl, ?_, ?_⟩
  · intro v hv hd
    exact flush_get_of_not_dyn s q v hv hd
  · intro v hv hnone
    rcases flushFold_get_none s.dynamicEntries s.exactMatchTable q hnone
      with h1 | ⟨hmem, v2, hv2, hd2⟩
    · rw [hv] at h1; cases h1
    · rw [hv] at hv2
      injection hv2 with h3
      subst h3
      exact ⟨hmem, hd2⟩

/-- C7 witness: the contract instantiated at a concrete state holding one
generated and one caller-registered entry, queried at the registered
path. -/
theorem C7_flush_contract_witness :
    (flushDynamicRoutes flushDemoState).dynamicEntries = [] ∧
    (∀ v, mapGet flushDemoState.exactMatchTable "b" = some v →
      v.dynamicEntry = false →
      mapGet (flushDynamicRoutes flushDemoState).exactMatchTable "b"
        = some v) ∧
    (∀ v, mapGet flushDemoState.exactMatchTable "b" = some v →
      mapGet (flushDynamicRoutes flushDemoState).exactMatchTable "b"
        = none →
      "b" ∈ flushDemoState.dynamicEntries ∧ v.dynamicEntry = true) :=
  C7_flush_contract flushDemoState "b"

/-- C3: when a path misses the exact table and two or more records of the
sorted, duplicate-free prefix table match it, the lookup returns the
destination of the matching record with the greatest path length. -/
theorem C3_longest_match (s : St) (p : String) (r1 r2 m : route)
    (hs : sortedLenDesc s.prefixRoutesTable)
    (hd : distinctNonempty s.prefixRoutesTable)
    (hex : mapGet s.exactMatchTable p = none)
    (h1 : r1 ∈ s.prefixRoutesTable) (h1m : routeMatches r1 p = true)
    (h2 : r2 ∈ s.prefixRoutesTable) (h2m : routeMatches r2 p = true)
    (hne : r1 ≠ r2)
    (hm : m ∈ s.prefixRoutesTable) (hmm : routeMatches m p = true)
    (hmax : ∀ q ∈ s.prefixRoutesTable, routeMatches q p = true →
      q.path.length ≤ m.path.length) :
    (routeLookup s p).1 = m.destination := by
  cases hf : s.prefixRoutesTable.find? (fun x => routeMatches x p) with
  | none =>
    rw [List.find?_eq_none] at hf
    exact absurd hmm (by simpa using hf m hm)
  | some r =>
    have hrmem : r ∈ s.prefixRoutesTable := List.mem_of_find?_eq_some hf
    have hrmatch : routeMatches r p = true := by
      have h3 := List.find?_some hf
      simpa using h3
    have hlen : r.path.length = m.path.length :=
      Nat.le_antisymm (hmax r hrmem hrmatch)
        (find_first_len_max s.prefixRoutesTable p hs r hf m hm hmm)
    have hpath : r.path = m.path :=
      routeMatches_eq_path_of_len_eq r m p hrmatch hmm hlen
    have hrm : r = m :=
      mem_eq_of_distinct s.prefixRoutesTable r m hd hrmem hm hpath
        (routeMatches_path_ne_empty r p hrmatch)
    rw [routeLookup_scan_hit s p r hex hf, hrm]

/-- C3 witness: the longest-match theorem instantiated at a two-record
table matched twice by "/a/b/c", where the longer record "/a/b" carries
destination "s2". -/
theorem C3_longest_match_witness :
    sortedLenDesc lpmDemoState.prefixRoutesTable ∧
    distinctNonempty lpmDemoState.prefixRoutesTable ∧
    (routeLookup lpmDemoState "/a/b/c").1 = "s2" :=
  ⟨by decide, by decide, by
    exact C3_longest_match lpmDemoState "/a/b/c"
      (mkRoute "/a/b" "prefix" "s2" false)
      (mkRoute "/a" "prefix" "s1" false)
      (mkRoute "/a/b" "prefix" "s2" false)
      (by decide) (by decide) (by decide) (by decide) (by decide)
      (by decide) (by decide) (by decide) (by decide) (by decide)
      (by decide)⟩

/-- C4: registering an exact route and a prefix route at the same literal
path, in either order, leaves both in place — the exact table holds the
caller's exact record with destination d1, the prefix table holds a record
at the path with destination d2, and looking up the literal path returns
d1. -/
theorem C4_exact_outranks_same_path (s : St) (p d1 d2 : String) :
    ((routeLookup (addRoute (addRoute s p "exact" d1).2 p "prefix" d2).2
        p).1 = d1 ∧
     mapGet (addRoute (addRoute s p "exact" d1).2 p "prefix"
        d2).2.exactMatchTable p = some (mkRoute p "exact" d1 false) ∧
     (∃ r ∈ (addRoute (addRoute s p "exact" d1).2 p "prefix"
        d2).2.prefixRoutesTable, r.path = p ∧ r.destination = d2)) ∧
    ((routeLookup (addRoute (addRoute s p "prefix" d2).2 p "exact" d1).2
        p).1 = d1 ∧
     mapGet (addRoute (addRoute s p "prefix" d2).2 p "exact"
        d1).2.exactMatchTable p = some (mkRoute p "exact" d1 false) ∧
     (∃ r ∈ (addRoute (addRoute s p "prefix" d2).2 p "exact"
        d1).2.prefixRoutesTable, r.path = p ∧ r.destination = d2)) := by
  constructor
  · rw [addRoute_exact s p d1]
    cases hscan : upsertScan s.prefixRoutesTable p d2 with
    | some tbl =>
      rw [addRoute_other_update ({ s with exactMatchTable := mapInsert s.exactMatchTable p (mkRoute p "exact" d1 false) }) p "prefix" d2 tbl (by decide) hscan]
      have hget : mapGet (flushDynamicRoutes { s with exactMatchTable := mapInsert s.exactMatchTable p (mkRoute p "exact" d1 false), prefixRoutesTable := tbl }).exactMatchTable p = some (mkRoute p "exact" d1 false) := by
        apply flush_get_of_not_dyn
        · exact mapGet_mapInsert_self _ _ _
        · rfl
      refine ⟨?_, hget, ?_⟩
      · rw [routeLookup_exact_hit _ p _ hget]; rfl
      · exact upsertScan_some_mem s.prefixRoutesTable p d2 tbl hscan
    | none =>
      rw [addRoute_other_insert ({ s with exactMatchTable := mapInsert s.exactMatchTable p (mkRoute p "exact" d1 false) }) p "prefix" d2 (by decide) hscan]
      have hget : mapGet (mapInsert s.exactMatchTable p (mkRoute p "exact" d1 false)) p = some (mkRoute p "exact" d1 false) := mapGet_mapInsert_self _ _ _
      refine ⟨?_, hget, ?_⟩
      · rw [routeLookup_exact_hit _ p _ hget]; rfl
      · refine ⟨mkRoute p "prefix" d2 false, ?_, rfl, rfl⟩
        apply (sortLenDesc_perm _).mem_iff.mpr
        simp
  · cases hscan : upsertScan s.prefixRoutesTable p d2 with
    | some tbl =>
      rw [addRoute_other_update s p "prefix" d2 tbl (by decide) hscan,
        addRoute_exact _ p d1]
      have hget := mapGet_mapInsert_self (flushDynamicRoutes { s with prefixRoutesTable := tbl }).exactMatchTable p (mkRoute p "exact" d1 false)
      refine ⟨?_, hget, ?_⟩
      · rw [routeLookup_exact_hit _ p _ hget]; rfl
      · exact upsertScan_some_mem s.prefixRoutesTable p d2 tbl hscan
    | none =>
      rw [addRoute_other_insert s p "prefix" d2 (by decide) hscan,
        addRoute_exact _ p d1]
      have hget := mapGet_mapInsert_self s.exactMatchTable p
        (mkRoute p "exact" d1 false)
      refine ⟨?_, hget, ?_⟩
      · rw [routeLookup_exact_hit _ p _ hget]; rfl
      · refine ⟨mkRoute p "prefix" d2 false, ?_, rfl, rfl⟩
        apply (sortLenDesc_perm _).mem_iff.mpr
        simp

theorem createDynamicRoute_exactTable (s : St) (q dst : String) :
    (createDynamicRoute s q dst).exactMatchTable =
      mapInsert s.exactMatchTable q (mkRoute q "exact" dst true) := rfl

/-- C5 counterexample: the claim allows an intervening exact AddRoute at
the looked-up path; after RouteLookup "/a" returns the default, an exact
registration of "/a" makes the second RouteLookup "/a" return "s" — the
two lookups disagree although no prefix route was added between them. -/
theorem C5_counterexample :
    (routeLookup (step (step initState (.lookup "/a"))
        (.add "/a" "exact" "s")) "/a").1 ≠
      (routeLookup initState "/a").1 := by
  decide

theorem step_preserves_exact_entry (s : St) (p : String) (v : route)
    (op : Op) (hop : allowedBetween p op = true)
    (hv : mapGet s.exactMatchTable p = some v) :
    mapGet (step s op).exactMatchTable p = some v := by
  cases op with
  | add q m d =>
    have hop2 : m = "exact" ∧ ¬(q = p) := by
      simpa [allowedBetween, Bool.and_eq_true] using hop
    obtain ⟨hm, hqp⟩ := hop2
    subst hm
    show mapGet (addRoute s q "exact" d).2.exactMatchTable p = some v
    rw [addRoute_exact s q d]
    show mapGet (mapInsert s.exactMatchTable q
      (mkRoute q "exact" d false)) p = some v
    rw [mapGet_mapInsert_ne _ q p _ (fun h2 => hqp h2.symm)]
    exact hv
  | lookup q =>
    show mapGet (routeLookup s q).2.2.exactMatchTable p = some v
    by_cases hqp : q = p
    · subst hqp
      rw [routeLookup_exact_hit s q v hv]
      exact hv
    · cases hq : mapGet s.exactMatchTable q with
      | some rte =>
        rw [routeLookup_exact_hit s q rte hq]
        exact hv
      | none =>
        cases hf : s.prefixRoutesTable.find? (fun x => routeMatches x q) with
        | some r =>
          rw [routeLookup_scan_hit s q r hq hf]
          show mapGet (createDynamicRoute s q r.destination).exactMatchTable
            p = some v
          rw [createDynamicRoute_exactTable,
            mapGet_mapInsert_ne _ q p _ (fun h2 => hqp h2.symm)]
          exact hv
        | none =>
          rw [routeLookup_scan_default s q hq hf]
          show mapGet (createDynamicRoute s q
            "default-service").exactMatchTable p = some v
          rw [createDynamicRoute_exactTable,
            mapGet_mapInsert_ne _ q p _ (fun h2 => hqp h2.symm)]
          exact hv

theorem foldSteps_preserve_exact_entry (ops : List Op) (s : St)
    (p : String) (v : route)
    (hops : ∀ op ∈ ops, allowedBetween p op = true)
    (hv : mapGet s.exactMatchTable p = some v) :
    mapGet (ops.foldl step s).exactMatchTable p = some v := by
  induction ops generalizing s with
  | nil => exact hv
  | cons op ops ih =>
    exact ih (step s op)
      (fun o ho => hops o (List.mem_cons_of_mem op ho))
      (step_preserves_exact_entry s p v op
        (hops op (List.mem_cons_self op ops)) hv)

/-- C5 amended: two lookups of the same path agree when the operations
between them contain no prefix-route AddRoute and no exact AddRoute at
that same path — lookups of any path and exact registrations at other
paths are harmless. -/
theorem C5_amended_cache_transparency (s : St) (p : String) (ops : List Op)
    (hops : ∀ op ∈ ops, allowedBetween p op = true) :
    (routeLookup (ops.foldl step (routeLookup s p).2.2) p).1 =
      (routeLookup s p).1 := by
  obtain ⟨v, hv, hdest⟩ := routeLookup_cached s p
  have h2 := foldSteps_preserve_exact_entry ops (routeLookup s p).2.2 p v
    hops hv
  rw [routeLookup_exact_hit _ p v h2]
  exact hdest

/-- C5 witness: the amended theorem instantiated with an exact
registration and a lookup of another path "/b" between the two lookups of
"/a". -/
theorem C5_amended_cache_transparency_witness :
    (∀ op ∈ [Op.add "/b" "exact" "x", Op.lookup "/b"],
      allowedBetween "/a" op = true) ∧
    (routeLookup ([Op.add "/b" "exact" "x", Op.lookup "/b"].foldl step
        (routeLookup initState "/a").2.2) "/a").1 =
      (routeLookup initState "/a").1 :=
  ⟨by decide, C5_amended_cache_transparency initState "/a"
    [Op.add "/b" "exact" "x", Op.lookup "/b"] (by decide)⟩

theorem step_preserves_table_inv (s : St) (op : Op)
    (h : sortedLenDesc s.prefixRoutesTable ∧
      distinctNonempty s.prefixRoutesTable) :
    sortedLenDesc (step s op).prefixRoutesTable ∧
      distinctNonempty (step s op).prefixRoutesTable := by
  obtain ⟨hs, hd⟩ := h
  cases op with
  | lookup q =>
    show sortedLenDesc (routeLookup s q).2.2.prefixRoutesTable ∧
      distinctNonempty (routeLookup s q).2.2.prefixRoutesTable
    rw [routeLookup_prefixTable s q]
    exact ⟨hs, hd⟩
  | add q m d =>
    show sortedLenDesc (addRoute s q m d).2.prefixRoutesTable ∧
      distinctNonempty (addRoute s q m d).2.prefixRoutesTable
    by_cases hm : m = "exact"
    · subst hm
      rw [addRoute_exact s q d]
      exact ⟨hs, hd⟩
    · cases hscan : upsertScan s.prefixRoutesTable q d with
      | some tbl =>
        rw [addRoute_other_update s q m d tbl hm hscan]
        have hpaths := upsertScan_map_path s.prefixRoutesTable q d tbl hscan
        exact ⟨sorted_of_map_path_eq _ _ hpaths hs,
          distinct_of_map_path_eq _ _ hpaths hd⟩
      | none =>
        rw [addRoute_other_insert s q m d hm hscan]
        have hnone := (upsertScan_none_iff s.prefixRoutesTable q d).mp hscan
        have happ : distinctNonempty
            (s.prefixRoutesTable ++ [mkRoute q m d false]) := by
          show List.Pairwise pathDistinctRel
            (s.prefixRoutesTable ++ [mkRoute q m d false])
          rw [List.pairwise_append]
          refine ⟨hd, ?_, ?_⟩
          · simp
          · intro a ha b hb
            have hb2 : b = mkRoute q m d false := by simpa using hb
            intro hane
            rw [hb2]
            exact hnone a ha
        exact ⟨sortLenDesc_sorted _,
          distinct_of_perm _ _ (sortLenDesc_perm _).symm happ⟩

/-- C8 amended: after every operation sequence from the initial state the
prefix table is ordered by non-increasing path length and holds at most
one record per distinct nonempty path — re-registering a prefix path
updates in place — while the ten zero-value placeholder records created by
init all share the empty path. -/
theorem C8_amended_table_inv (ops : List Op) :
    sortedLenDesc (run ops).prefixRoutesTable ∧
      distinctNonempty (run ops).prefixRoutesTable := by
  suffices h : ∀ (l : List Op) (s : St),
      sortedLenDesc s.prefixRoutesTable ∧
        distinctNonempty s.prefixRoutesTable →
      sortedLenDesc (l.foldl step s).prefixRoutesTable ∧
        distinctNonempty (l.foldl step s).prefixRoutesTable by
    exact h ops initState (by decide)
  intro l
  induction l with
  | nil => intro s hs; exact hs
  | cons op l ih =>
    intro s hs
    exact ih (step s op) (step_preserves_table_inv s op hs)

theorem kindErased_refl (a : route) : kindErased a a := ⟨rfl, rfl, rfl⟩

theorem forall2_append_single (l : List route) (a b : route)
    (hab : kindErased a b) :
    List.Forall₂ kindErased (l ++ [a]) (l ++ [b]) := by
  induction l with
  | nil => exact List.Forall₂.cons hab List.Forall₂.nil
  | cons x xs ih => exact List.Forall₂.cons (kindErased_refl x) ih

theorem kindErased_insertLenDesc (a b : route) (l1 l2 : List route)
    (hab : kindErased a b) (h : List.Forall₂ kindErased l1 l2) :
    List.Forall₂ kindErased (insertLenDesc a l1) (insertLenDesc b l2) := by
  induction h with
  | nil => exact List.Forall₂.cons hab List.Forall₂.nil
  | cons hxy hl ih =>
    rename_i x y l1' l2'
    by_cases hc : a.path.length ≤ x.path.length
    · rw [insertLenDesc, if_pos hc, insertLenDesc,
        if_pos (by rw [← hab.1, ← hxy.1]; exact hc)]
      exact List.Forall₂.cons hxy ih
    · rw [insertLenDesc, if_neg hc, insertLenDesc,
        if_neg (by rw [← hab.1, ← hxy.1]; exact hc)]
      exact List.Forall₂.cons hab (List.Forall₂.cons hxy hl)

theorem kindErased_sortLenDesc (l1 l2 : List route)
    (h : List.Forall₂ kindErased l1 l2) :
    List.Forall₂ kindErased (sortLenDesc l1) (sortLenDesc l2) := by
  induction h with
  | nil => exact List.Forall₂.nil
  | cons hxy hl ih => exact kindErased_insertLenDesc _ _ _ _ hxy ih

theorem eraseKind_eq_of_forall2 (l1 l2 : List route)
    (h : List.Forall₂ kindErased l1 l2) : eraseKind l1 = eraseKind l2 := by
  induction h with
  | nil => rfl
  | cons hxy hl ih =>
    rename_i x y l1' l2'
    show (x.path, x.destination, x.dynamicEntry) :: eraseKind l1' =
      (y.path, y.destination, y.dynamicEntry) :: eraseKind l2'
    rw [hxy.1, hxy.2.1, hxy.2.2, ih]

/-- C10: any matchType other than "exact" is handled exactly like a
prefix-route registration: the call returns nil, the exact table, ledger
and matchType-erased prefix table equal those produced by the same call
with matchType "prefix", the path ends up upserted in the prefix table
with the given destination, an in-place modification clears the ledger
(the flush ran), and a fresh insert leaves ledger and exact table
untouched. -/
theorem C10_unrecognized_matchType (s : St) (p d m : String)
    (hm : m ≠ "exact") :
    (addRoute s p m d).1 = none ∧
    (addRoute s p m d).2.exactMatchTable =
      (addRoute s p "prefix" d).2.exactMatchTable ∧
    (addRoute s p m d).2.dynamicEntries =
      (addRoute s p "prefix" d).2.dynamicEntries ∧
    eraseKind (addRoute s p m d).2.prefixRoutesTable =
      eraseKind (addRoute s p "prefix" d).2.prefixRoutesTable ∧
    (∃ r ∈ (addRoute s p m d).2.prefixRoutesTable,
      r.path = p ∧ r.destination = d) ∧
    ((∃ r ∈ s.prefixRoutesTable, r.path = p) →
      (addRoute s p m d).2.dynamicEntries = []) ∧
    ((∀ r ∈ s.prefixRoutesTable, r.path ≠ p) →
      (addRoute s p m d).2.dynamicEntries = s.dynamicEntries ∧
      (addRoute s p m d).2.exactMatchTable = s.exactMatchTable) := by
  cases hscan : upsertScan s.prefixRoutesTable p d with
  | some tbl =>
    rw [addRoute_other_update s p m d tbl hm hscan,
      addRoute_other_update s p "prefix" d tbl (by decide) hscan]
    refine ⟨rfl, rfl, rfl, rfl, ?_, ?_, ?_⟩
    · exact upsertScan_some_mem s.prefixRoutesTable p d tbl hscan
    · intro _; rfl
    · intro hall
      exfalso
      rw [(upsertScan_none_iff s.prefixRoutesTable p d).mpr hall] at hscan
      cases hscan
  | none =>
    rw [addRoute_other_insert s p m d hm hscan,
      addRoute_other_insert s p "prefix" d (by decide) hscan]
    refine ⟨rfl, rfl, rfl, ?_, ?_, ?_, ?_⟩
    · exact eraseKind_eq_of_forall2 _ _ (kindErased_sortLenDesc _ _
        (forall2_append_single s.prefixRoutesTable _ _ ⟨rfl, rfl, rfl⟩))
    · refine ⟨mkRoute p m d false, ?_, rfl, rfl⟩
      apply (sortLenDesc_perm _).mem_iff.mpr
      simp
    · intro hex
      exfalso
      obtain ⟨r, hr, hrp⟩ := hex
      exact (upsertScan_none_iff s.prefixRoutesTable p d).mp hscan r hr hrp
    · exact fun _ => ⟨rfl, rfl⟩

/-- C10 witness: the theorem instantiated at the initial state with the
unrecognized matchType "exat". -/
theorem C10_unrecognized_matchType_witness :
    ("exat" ≠ "exact") ∧
    ((addRoute initState "/a" "exat" "x").1 = none ∧
     (addRoute initState "/a" "exat" "x").2.exactMatchTable =
       (addRoute initState "/a" "prefix" "x").2.exactMatchTable ∧
     (addRoute initState "/a" "exat" "x").2.dynamicEntries =
       (addRoute initState "/a" "prefix" "x").2.dynamicEntries ∧
     eraseKind (addRoute initState "/a" "exat" "x").2.prefixRoutesTable =
       eraseKind (addRoute initState "/a" "prefix"
         "x").2.prefixRoutesTable ∧
     (∃ r ∈ (addRoute initState "/a" "exat" "x").2.prefixRoutesTable,
       r.path = "/a" ∧ r.destination = "x") ∧
     ((∃ r ∈ initState.prefixRoutesTable, r.path = "/a") →
       (addRoute initState "/a" "exat" "x").2.dynamicEntries = []) ∧
     ((∀ r ∈ initState.prefixRoutesTable, r.path ≠ "/a") →
       (addRoute initState "/a" "exat" "x").2.dynamicEntries =
         initState.dynamicEntries ∧
       (addRoute initState "/a" "exat" "x").2.exactMatchTable =
         initState.exactMatchTable)) :=
  ⟨by decide,
    C10_unrecognized_matchType initState "/a" "x" "exat" (by decide)⟩

end RouteMatching
